import Mathlib

/-!
Shallow embedding of the falling-sand simulation (src/main.rs).

The grid is a dense row-major store of `WIDTH * HEIGHT` particles indexed
by `y * WIDTH + x`; it is modelled as a total function `Nat → Particle`
together with `Option`-valued accessors that model the fatal bounds check
of the Rust array indexing.  The `movable` hash set is modelled as a
`Finset (Nat × Nat)`.  Because the Rust code iterates a clone of the hash
set in an unspecified order, one tick is modelled as a left fold of the
per-coordinate `step` over an arbitrary duplicate-free enumeration
(`IsSnapshot`) of the set taken at the start of the tick.
-/

def WIDTH : Nat := 427
def HEIGHT : Nat := 240
def SCALE : Nat := 3

inductive Particle where
  | Empty
  | Static
  | Sand
deriving DecidableEq, Repr

/-- The fixed display color of each particle kind (`Particle::color`),
as the three `[r, g, b]` channel bytes. -/
def Particle.color : Particle → Nat × Nat × Nat
  | .Empty => (92, 208, 224)
  | .Static => (99, 78, 28)
  | .Sand => (234, 195, 103)

structure World where
  grid : Nat → Particle
  movable : Finset (Nat × Nat)
  radius : Nat

/-- `World::new`: empty grid, empty active set, radius 10. -/
def World.new : World :=
  { grid := fun _ => Particle.Empty, movable := ∅, radius := 10 }

/-- `World::get`, for in-range accesses: read the cell at linear index
`y * WIDTH + x`. -/
def World.get (w : World) (x y : Nat) : Particle :=
  w.grid (y * WIDTH + x)

/-- `World::set`, for in-range accesses: write the cell at linear index
`y * WIDTH + x`. -/
def World.set (w : World) (x y : Nat) (p : Particle) : World :=
  { w with grid := fun i => if i = y * WIDTH + x then p else w.grid i }

/-- `World::get` with the fatal bounds check of Rust array indexing made
explicit: the read panics (returns `none`) exactly when the linear index
`y * WIDTH + x` falls outside the backing array of `WIDTH * HEIGHT` cells. -/
def World.getChecked (w : World) (x y : Nat) : Option Particle :=
  if y * WIDTH + x < WIDTH * HEIGHT then some (w.grid (y * WIDTH + x)) else none

/-- `World::set` with the fatal bounds check of Rust array indexing made
explicit. -/
def World.setChecked (w : World) (x y : Nat) (p : Particle) : Option World :=
  if y * WIDTH + x < WIDTH * HEIGHT then some (w.set x y p) else none

/-- The candidate-selection chain of `World::update`: straight down if
empty, else down-left if empty, else down-right if empty, else none. -/
def toGo (w : World) (x y : Nat) : Option (Nat × Nat) :=
  if w.get x (y + 1) = Particle.Empty then some (x, y + 1)
  else if w.get (x - 1) (y + 1) = Particle.Empty then some (x - 1, y + 1)
  else if w.get (x + 1) (y + 1) = Particle.Empty then some (x + 1, y + 1)
  else none

/-- The move executed by `World::update` once a candidate `p` is found:
source cell becomes empty, destination cell becomes sand, the source
coordinate is removed from the active set and the destination inserted. -/
def moveTo (w : World) (x y : Nat) (p : Nat × Nat) : World :=
  let w1 := (w.set x y Particle.Empty).set p.1 p.2 Particle.Sand
  { w1 with movable := insert p (w1.movable.erase (x, y)) }

/-- One loop iteration of `World::update` for the snapshot coordinate `c`:
the boundary guard skips `x == 0`, `x >= WIDTH - 1` and `y >= HEIGHT - 1`;
otherwise the first empty candidate (if any) receives the particle. -/
def step (w : World) (c : Nat × Nat) : World :=
  if c.1 = 0 ∨ WIDTH - 1 ≤ c.1 ∨ HEIGHT - 1 ≤ c.2 then w
  else
    match toGo w c.1 c.2 with
    | some p => moveTo w c.1 c.2 p
    | none => w

/-- One whole tick (`World::update`), iterating the snapshot of the active
set in the order given by `order`. -/
def tickWith (order : List (Nat × Nat)) (w : World) : World :=
  order.foldl step w

/-- `order` is a faithful enumeration of the cloned hash set iterated by
`World::update`: duplicate-free and containing exactly the members of the
active set. -/
def IsSnapshot (order : List (Nat × Nat)) (w : World) : Prop :=
  order.Nodup ∧ ∀ c, c ∈ order ↔ c ∈ w.movable

/-- One tick relates `w` to `w'` when some enumeration of the snapshot
produces `w'`; the hash-set iteration order is unspecified, so all
enumerations are admitted. -/
def TickRel (w w' : World) : Prop :=
  ∃ order, IsSnapshot order w ∧ w' = tickWith order w

/-- `ticksTo k w w'`: `k` consecutive ticks lead from `w` to `w'`. -/
def ticksTo : Nat → World → World → Prop
  | 0, w, w' => w' = w
  | k + 1, w, w' => ∃ w1, TickRel w w1 ∧ ticksTo k w1 w'

/-- The half-open integer range `lo..hi` of a Rust `for` loop. -/
def natRange (lo hi : Nat) : List Nat :=
  (List.range (hi - lo)).map (fun k => lo + k)

/-- The body of the paint loop in `World::add`: set the cell, and when
painting sand also insert the coordinate into the active set. -/
def paintCell (particle : Particle) (w : World) (c : Nat × Nat) : World :=
  let w1 := w.set c.1 c.2 particle
  if particle = Particle.Sand then { w1 with movable := insert c w1.movable } else w1

/-- The list of cells visited by the nested paint loops of `World::add`:
the clamped half-open region `[lower_x, upper_x) × [lower_y, upper_y)`,
outer loop over `x`, inner loop over `y`. -/
def paintCells (mx my r : Nat) : List (Nat × Nat) :=
  let lower_x := if mx < r then 0 else mx - r
  let upper_x := if mx + r ≥ WIDTH then WIDTH - 1 else mx + r
  let lower_y := if my < r then 0 else my - r
  let upper_y := if my + r ≥ HEIGHT then HEIGHT - 1 else my + r
  (natRange lower_x upper_x).flatMap
    (fun x => (natRange lower_y upper_y).map (fun y => (x, y)))

/-- `World::add`: clamp the brush square to the grid and paint every cell
of the half-open region `[lower_x, upper_x) × [lower_y, upper_y)`. -/
def World.add (w : World) (mx my : Nat) (particle : Particle) : World :=
  (paintCells mx my w.radius).foldl (paintCell particle) w

/-- A pointwise update of the byte buffer handed to `World::draw`. -/
def updFrame (f : Nat → Nat) (j v : Nat) : Nat → Nat :=
  fun i => if i = j then v else f i

/-- One iteration of the render loop of `World::draw`: write the three
color channel bytes of cell `i` followed by the alpha byte 255. -/
def drawCell (w : World) (f : Nat → Nat) (i : Nat) : Nat → Nat :=
  let c := (w.grid i).color
  updFrame (updFrame (updFrame (updFrame f (i * 4) c.1) (i * 4 + 1) c.2.1)
      (i * 4 + 2) c.2.2)
    (i * 4 + 3) 255

/-- `World::draw`: render every cell of the grid, in row-major order, into
the frame buffer. -/
def World.draw (w : World) (f : Nat → Nat) : Nat → Nat :=
  (List.range (WIDTH * HEIGHT)).foldl (drawCell w) f

/-- The number of sand cells stored in the backing array. -/
def countSand (g : Nat → Particle) : Nat :=
  ((Finset.range (WIDTH * HEIGHT)).filter (fun i => g i = Particle.Sand)).card

/-- The number of sand cells of a world's grid. -/
def sandCount (w : World) : Nat := countSand w.grid

/-- Every member of the active set lies within the grid and its cell
holds sand. -/
def GoodActive (w : World) : Prop :=
  ∀ c ∈ w.movable, c.1 < WIDTH ∧ c.2 < HEIGHT ∧ w.get c.1 c.2 = Particle.Sand

/-- The brush region claimed by the spec, in its `max`/`min` phrasing:
`[max(0, mx - r), min(WIDTH - 1, mx + r)) × [max(0, my - r), min(HEIGHT - 1, my + r))`. -/
def inRegion (mx my r : Nat) (c : Nat × Nat) : Prop :=
  max 0 (mx - r) ≤ c.1 ∧ c.1 < min (WIDTH - 1) (mx + r) ∧
  max 0 (my - r) ≤ c.2 ∧ c.2 < min (HEIGHT - 1) (my + r)

instance (mx my r : Nat) (c : Nat × Nat) : Decidable (inRegion mx my r c) := by
  unfold inRegion; infer_instance

/-- A world holding a single sand particle at `(x, y)` on an otherwise
empty grid, with exactly that coordinate tracked in the active set. -/
def loneWorld (x y : Nat) : World :=
  { grid := fun i => if i = y * WIDTH + x then Particle.Sand else Particle.Empty,
    movable := {(x, y)}, radius := 10 }

/-- A world with a single static cell at `(9, 9)` whose coordinate is
(stalely) tracked in the active set. -/
def wStatic : World :=
  { World.new.set 9 9 Particle.Static with movable := {(9, 9)} }

/-- Unfolding `step` at an explicit coordinate pair. -/
lemma step_def (w : World) (x y : Nat) :
    step w (x, y) =
      if x = 0 ∨ WIDTH - 1 ≤ x ∨ HEIGHT - 1 ≤ y then w
      else
        match toGo w x y with
        | some p => moveTo w x y p
        | none => w := rfl

lemma step_guard {w : World} {x y : Nat}
    (h : x = 0 ∨ WIDTH - 1 ≤ x ∨ HEIGHT - 1 ≤ y) : step w (x, y) = w := by
  rw [step_def, if_pos h]

lemma step_eq_of_toGo {w : World} {x y : Nat} {d : Nat × Nat}
    (hg : ¬(x = 0 ∨ WIDTH - 1 ≤ x ∨ HEIGHT - 1 ≤ y))
    (ht : toGo w x y = some d) : step w (x, y) = moveTo w x y d := by
  rw [step_def, if_neg hg, ht]

lemma step_eq_of_noGo {w : World} {x y : Nat}
    (hg : ¬(x = 0 ∨ WIDTH - 1 ≤ x ∨ HEIGHT - 1 ≤ y))
    (ht : toGo w x y = none) : step w (x, y) = w := by
  rw [step_def, if_neg hg, ht]

/-- Any candidate produced by `toGo` is one row below the source, at one
of the three columns `x - 1`, `x`, `x + 1`, and its cell is empty. -/
lemma toGo_dest {w : World} {x y : Nat} {d : Nat × Nat} (h : toGo w x y = some d) :
    d.2 = y + 1 ∧ (d.1 = x ∨ d.1 = x - 1 ∨ d.1 = x + 1) ∧
      w.get d.1 d.2 = Particle.Empty := by
  unfold toGo at h
  split_ifs at h with h1 h2 h3
  · rcases Option.some.inj h with rfl
    exact ⟨rfl, Or.inl rfl, h1⟩
  · rcases Option.some.inj h with rfl
    exact ⟨rfl, Or.inr (Or.inl rfl), h2⟩
  · rcases Option.some.inj h with rfl
    exact ⟨rfl, Or.inr (Or.inr rfl), h3⟩

/-- Consequences of executing a found move inside the boundary guard:
source becomes empty, destination becomes sand, active set updated, and
the destination is a distinct in-range cell. -/
lemma moveTo_effects {w : World} {x y : Nat} {d : Nat × Nat}
    (hx0 : x ≠ 0) (hxW : x < WIDTH - 1) (hyH : y < HEIGHT - 1)
    (ht : toGo w x y = some d) :
    (moveTo w x y d).get x y = Particle.Empty ∧
    (moveTo w x y d).get d.1 d.2 = Particle.Sand ∧
    (moveTo w x y d).movable = insert d (w.movable.erase (x, y)) ∧
    d.1 < WIDTH ∧ d.2 < HEIGHT ∧ d ≠ (x, y) ∧
    d.2 * WIDTH + d.1 ≠ y * WIDTH + x ∧
    w.get d.1 d.2 = Particle.Empty := by
  obtain ⟨hd2, hd1, hde⟩ := toGo_dest ht
  have hidx : d.2 * WIDTH + d.1 ≠ y * WIDTH + x := by
    rcases hd1 with h | h | h <;>
      (rw [hd2, h] <;> simp only [WIDTH, HEIGHT] at * <;> omega)
  refine ⟨?_, ?_, rfl, ?_, ?_, ?_, hidx, hde⟩
  · show (if y * WIDTH + x = d.2 * WIDTH + d.1 then Particle.Sand
        else if y * WIDTH + x = y * WIDTH + x then Particle.Empty
        else w.grid (y * WIDTH + x)) = Particle.Empty
    rw [if_neg (fun hh => hidx hh.symm), if_pos rfl]
  · show (if d.2 * WIDTH + d.1 = d.2 * WIDTH + d.1 then Particle.Sand
        else if d.2 * WIDTH + d.1 = y * WIDTH + x then Particle.Empty
        else w.grid (d.2 * WIDTH + d.1)) = Particle.Sand
    rw [if_pos rfl]
  · rcases hd1 with h | h | h <;> (rw [h] <;> simp only [WIDTH] at * <;> omega)
  · rw [hd2]; simp only [HEIGHT] at *; omega
  · intro hh
    rw [hh] at hd2
    exact Nat.succ_ne_self y (by omega)

/-- C1: for a snapshot coordinate that passes the boundary guard, the
three movement candidates are checked in fixed priority order (down,
down-left, down-right) with the first empty one winning; a found move
empties the source cell, writes sand into the destination cell, removes
the source coordinate from the active set and inserts the destination
coordinate; in particular a blocked-down particle with both diagonals
empty moves down-left. -/
theorem c1_move_priority (w : World) (x y : Nat)
    (hx0 : x ≠ 0) (hxW : x < WIDTH - 1) (hyH : y < HEIGHT - 1) :
    (w.get x (y + 1) = Particle.Empty →
      step w (x, y) = moveTo w x y (x, y + 1)) ∧
    (w.get x (y + 1) ≠ Particle.Empty → w.get (x - 1) (y + 1) = Particle.Empty →
      step w (x, y) = moveTo w x y (x - 1, y + 1)) ∧
    (w.get x (y + 1) ≠ Particle.Empty → w.get (x - 1) (y + 1) ≠ Particle.Empty →
      w.get (x + 1) (y + 1) = Particle.Empty →
      step w (x, y) = moveTo w x y (x + 1, y + 1)) ∧
    (∀ d, toGo w x y = some d →
      (step w (x, y)).get x y = Particle.Empty ∧
      (step w (x, y)).get d.1 d.2 = Particle.Sand ∧
      (step w (x, y)).movable = insert d (w.movable.erase (x, y)) ∧
      (x, y) ∉ (step w (x, y)).movable ∧ d ∈ (step w (x, y)).movable) := by
  have hg : ¬(x = 0 ∨ WIDTH - 1 ≤ x ∨ HEIGHT - 1 ≤ y) := by
    push_neg
    exact ⟨hx0, by omega, by omega⟩
  refine ⟨?_, ?_, ?_, ?_⟩
  · intro h1
    exact step_eq_of_toGo hg (by unfold toGo; rw [if_pos h1])
  · intro h1 h2
    exact step_eq_of_toGo hg (by unfold toGo; rw [if_neg h1, if_pos h2])
  · intro h1 h2 h3
    exact step_eq_of_toGo hg (by unfold toGo; rw [if_neg h1, if_neg h2, if_pos h3])
  · intro d ht
    obtain ⟨he, hs, hm, _, _, hne, _, _⟩ := moveTo_effects hx0 hxW hyH ht
    rw [step_eq_of_toGo hg ht]
    refine ⟨he, hs, hm, ?_, ?_⟩
    · rw [hm]
      intro hmem
      rcases Finset.mem_insert.1 hmem with h | h
      · exact hne h.symm
      · exact ((Finset.mem_erase.1 h).1 rfl).elim
    · rw [hm]
      exact Finset.mem_insert_self d _

/-- Witness for C1: a sand source at `(5, 3)` above a static cell at
`(5, 4)` with both diagonals empty moves down-left to `(4, 4)`. -/
theorem c1_witness :
    (5 : Nat) ≠ 0 ∧ 5 < WIDTH - 1 ∧ 3 < HEIGHT - 1 ∧
    World.get (World.set World.new 5 4 Particle.Static) 5 4 ≠ Particle.Empty ∧
    World.get (World.set World.new 5 4 Particle.Static) 4 4 = Particle.Empty ∧
    step (World.set World.new 5 4 Particle.Static) (5, 3) =
      moveTo (World.set World.new 5 4 Particle.Static) 5 3 (4, 4) :=
  ⟨by decide, by decide, by decide, by decide, by decide,
    (c1_move_priority (World.set World.new 5 4 Particle.Static) 5 3
        (by decide) (by decide) (by decide)).2.1 (by decide) (by decide)⟩

/-- A boundary coordinate stays in the active set through a whole tick,
whatever the iteration order. -/
lemma mem_movable_tickWith {c : Nat × Nat}
    (hg : c.1 = 0 ∨ WIDTH - 1 ≤ c.1 ∨ HEIGHT - 1 ≤ c.2) :
    ∀ (order : List (Nat × Nat)) (w : World), c ∈ w.movable →
      c ∈ (tickWith order w).movable := by
  intro order
  induction order with
  | nil => intro w hc; exact hc
  | cons a l ih =>
    intro w hc
    apply ih
    by_cases ha : a.1 = 0 ∨ WIDTH - 1 ≤ a.1 ∨ HEIGHT - 1 ≤ a.2
    · obtain ⟨ax, ay⟩ := a
      rw [step_guard ha]
      exact hc
    · obtain ⟨ax, ay⟩ := a
      have hne : c ≠ (ax, ay) := fun h => ha (h ▸ hg)
      cases ht : toGo w ax ay with
      | none => rw [step_eq_of_noGo ha ht]; exact hc
      | some d =>
        rw [step_eq_of_toGo ha ht]
        exact Finset.mem_insert_of_mem (Finset.mem_erase.2 ⟨hne, hc⟩)

/-- C2: a snapshot coordinate caught by the boundary guard (`x == 0`, or
`x >= WIDTH - 1`, or `y >= HEIGHT - 1`) is skipped entirely: its step
changes nothing, and the coordinate is still a member of the active set
after the whole tick, whatever the iteration order. -/
theorem c2_boundary_skip (w : World) (x y : Nat) (order : List (Nat × Nat))
    (hg : x = 0 ∨ WIDTH - 1 ≤ x ∨ HEIGHT - 1 ≤ y) :
    step w (x, y) = w ∧
    ((x, y) ∈ w.movable → (x, y) ∈ (tickWith order w).movable) :=
  ⟨step_guard hg, fun hc => mem_movable_tickWith hg order w hc⟩

/-- Witness for C2: the tracked left-edge sand cell of `loneWorld 0 5` is
skipped by its own step and survives the tick in the active set. -/
theorem c2_witness :
    ((0 : Nat) = 0 ∨ WIDTH - 1 ≤ 0 ∨ HEIGHT - 1 ≤ 5) ∧
    step (loneWorld 0 5) (0, 5) = loneWorld 0 5 ∧
    (0, 5) ∈ (tickWith [(0, 5)] (loneWorld 0 5)).movable :=
  ⟨Or.inl rfl,
    (c2_boundary_skip (loneWorld 0 5) 0 5 [(0, 5)] (Or.inl rfl)).1,
    (c2_boundary_skip (loneWorld 0 5) 0 5 [(0, 5)] (Or.inl rfl)).2 (by decide)⟩

/-- C10: a stale active-set coordinate whose cell does not hold sand is
still processed by `World::update`: if it passes the boundary guard and
some downward neighbour is empty, the tick empties the stale cell and
writes a fresh sand particle into the chosen neighbour. -/
theorem c10_stale_spawn (w : World) (x y : Nat)
    (hx0 : x ≠ 0) (hxW : x < WIDTH - 1) (hyH : y < HEIGHT - 1)
    (hstale : w.get x y ≠ Particle.Sand)
    (hnb : w.get x (y + 1) = Particle.Empty ∨
      w.get (x - 1) (y + 1) = Particle.Empty ∨
      w.get (x + 1) (y + 1) = Particle.Empty) :
    ∃ d, toGo w x y = some d ∧
      (step w (x, y)).get x y = Particle.Empty ∧
      (step w (x, y)).get d.1 d.2 = Particle.Sand := by
  have hg : ¬(x = 0 ∨ WIDTH - 1 ≤ x ∨ HEIGHT - 1 ≤ y) := by
    push_neg
    exact ⟨hx0, by omega, by omega⟩
  have hsome : ∃ d, toGo w x y = some d := by
    unfold toGo
    split_ifs with h1 h2 h3
    · exact ⟨_, rfl⟩
    · exact ⟨_, rfl⟩
    · exact ⟨_, rfl⟩
    · rcases hnb with h | h | h
      · exact absurd h h1
      · exact absurd h h2
      · exact absurd h h3
  obtain ⟨d, ht⟩ := hsome
  obtain ⟨he, hs, _, _, _, _, _, _⟩ := moveTo_effects hx0 hxW hyH ht
  exact ⟨d, ht, by rw [step_eq_of_toGo hg ht]; exact he,
    by rw [step_eq_of_toGo hg ht]; exact hs⟩

/-- Witness for C10: the stale static cell at `(9, 9)` of `wStatic` is
replaced by empty while a sand particle appears below it at `(9, 10)`. -/
theorem c10_witness :
    wStatic.get 9 9 = Particle.Static ∧
    (step wStatic (9, 9)).get 9 9 = Particle.Empty ∧
    (step wStatic (9, 9)).get 9 10 = Particle.Sand := by
  obtain ⟨d, hd, h1, h2⟩ := c10_stale_spawn wStatic 9 9 (by decide) (by decide)
    (by decide) (by decide) (Or.inl (by decide))
  have hgo : toGo wStatic 9 9 = some (9, 10) := by decide
  have hd' : d = (9, 10) := by
    rw [hgo] at hd
    exact (Option.some.inj hd).symm
  subst hd'
  exact ⟨by decide, h1, h2⟩

/-- Distinct in-range coordinates have distinct linear indices. -/
lemma idx_inj {x1 y1 x2 y2 : Nat} (h1 : x1 < WIDTH) (h2 : x2 < WIDTH)
    (h : y1 * WIDTH + x1 = y2 * WIDTH + x2) : x1 = x2 ∧ y1 = y2 := by
  simp only [WIDTH] at *
  omega

/-- In-range coordinates have in-range linear indices. -/
lemma idx_lt {x y : Nat} (hx : x < WIDTH) (hy : y < HEIGHT) :
    y * WIDTH + x < WIDTH * HEIGHT := by
  simp only [WIDTH, HEIGHT] at *
  omega

/-- Writing one in-range cell shifts the sand count by the difference
between the old and the new content of that cell. -/
lemma countSand_update (g : Nat → Particle) (j : Nat) (v : Particle)
    (hj : j < WIDTH * HEIGHT) :
    countSand (fun i => if i = j then v else g i) +
      (if g j = Particle.Sand then 1 else 0) =
    countSand g + (if v = Particle.Sand then 1 else 0) := by
  unfold countSand
  have hjmem : j ∈ Finset.range (WIDTH * HEIGHT) := Finset.mem_range.2 hj
  have hjt : j ∉ (Finset.range (WIDTH * HEIGHT)).erase j :=
    fun h => (Finset.mem_erase.1 h).1 rfl
  rw [← Finset.insert_erase hjmem, Finset.filter_insert, Finset.filter_insert]
  have hfilter :
      ((Finset.range (WIDTH * HEIGHT)).erase j).filter
        (fun i => (if i = j then v else g i) = Particle.Sand) =
      ((Finset.range (WIDTH * HEIGHT)).erase j).filter
        (fun i => g i = Particle.Sand) := by
    apply Finset.filter_congr
    intro i hi
    have hne : i ≠ j := (Finset.mem_erase.1 hi).1
    simp [hne]
  rw [hfilter]
  have hnm : j ∉ ((Finset.range (WIDTH * HEIGHT)).erase j).filter
      (fun i => g i = Particle.Sand) :=
    fun h => hjt (Finset.mem_filter.1 h).1
  by_cases hv : v = Particle.Sand <;> by_cases hgj : g j = Particle.Sand <;>
    simp [hv, hgj, Finset.card_insert_of_not_mem hnm]

/-- A move of a sand particle into an empty candidate cell preserves the
total number of sand cells. -/
lemma sandCount_moveTo {w : World} {x y : Nat} {d : Nat × Nat}
    (hx0 : x ≠ 0) (hxW : x < WIDTH - 1) (hyH : y < HEIGHT - 1)
    (ht : toGo w x y = some d) (hsand : w.get x y = Particle.Sand) :
    sandCount (moveTo w x y d) = sandCount w := by
  obtain ⟨_, _, _, hd1, hd2, _, hidx, hde⟩ := moveTo_effects hx0 hxW hyH ht
  have hsrc : y * WIDTH + x < WIDTH * HEIGHT := idx_lt (by omega) (by omega)
  have hdst : d.2 * WIDTH + d.1 < WIDTH * HEIGHT := idx_lt hd1 hd2
  have h1 := countSand_update w.grid (y * WIDTH + x) Particle.Empty hsrc
  have h2 := countSand_update (w.set x y Particle.Empty).grid
    (d.2 * WIDTH + d.1) Particle.Sand hdst
  have hg1 : (w.set x y Particle.Empty).grid (d.2 * WIDTH + d.1) =
      Particle.Empty := by
    show (if d.2 * WIDTH + d.1 = y * WIDTH + x then Particle.Empty
        else w.grid (d.2 * WIDTH + d.1)) = Particle.Empty
    rw [if_neg hidx]
    exact hde
  have hsand2 : w.grid (y * WIDTH + x) = Particle.Sand := hsand
  rw [hsand2] at h1
  rw [hg1] at h2
  have hmove : sandCount (moveTo w x y d) =
      countSand (fun i => if i = d.2 * WIDTH + d.1 then Particle.Sand
        else (w.set x y Particle.Empty).grid i) := rfl
  have hset : countSand (w.set x y Particle.Empty).grid =
      countSand (fun i => if i = y * WIDTH + x then Particle.Empty
        else w.grid i) := rfl
  have e0 : (if Particle.Empty = Particle.Sand then 1 else 0) = 0 := rfl
  have e1 : (if Particle.Sand = Particle.Sand then 1 else 0) = 1 := rfl
  rw [e0] at h1
  rw [e1] at h1 h2
  rw [hset] at h2
  have hgoal : sandCount w = countSand w.grid := rfl
  rw [hmove, hgoal]
  omega

/-- One loop iteration of the tick preserves the sand count and the
active-set invariant, and keeps every other member of the active set. -/
lemma step_sandCount_inv {w : World} {c : Nat × Nat}
    (hc : c ∈ w.movable) (hinv : GoodActive w) :
    sandCount (step w c) = sandCount w ∧ GoodActive (step w c) ∧
    ∀ m ∈ w.movable, m ≠ c → m ∈ (step w c).movable := by
  obtain ⟨x, y⟩ := c
  by_cases hg : x = 0 ∨ WIDTH - 1 ≤ x ∨ HEIGHT - 1 ≤ y
  · rw [step_guard hg]
    exact ⟨rfl, hinv, fun m hm _ => hm⟩
  cases ht : toGo w x y with
  | none =>
    rw [step_eq_of_noGo hg ht]
    exact ⟨rfl, hinv, fun m hm _ => hm⟩
  | some d =>
    rw [step_eq_of_toGo hg ht]
    push_neg at hg
    obtain ⟨hx0, hxW, hyH⟩ := hg
    obtain ⟨hxlt, hylt, hsand⟩ := hinv (x, y) hc
    obtain ⟨he, hs, hm, hd1, hd2, hdne, hidx, hde⟩ := moveTo_effects hx0 hxW hyH ht
    refine ⟨sandCount_moveTo hx0 hxW hyH ht hsand, ?_, ?_⟩
    · intro m hmm
      rw [hm] at hmm
      rcases Finset.mem_insert.1 hmm with rfl | hmem
      · exact ⟨hd1, hd2, hs⟩
      · obtain ⟨hne, hmem1⟩ := Finset.mem_erase.1 hmem
        obtain ⟨m1, m2⟩ := m
        obtain ⟨hmx, hmy, hmsand⟩ := hinv (m1, m2) hmem1
        refine ⟨hmx, hmy, ?_⟩
        show (if m2 * WIDTH + m1 = d.2 * WIDTH + d.1 then Particle.Sand
            else if m2 * WIDTH + m1 = y * WIDTH + x then Particle.Empty
            else w.grid (m2 * WIDTH + m1)) = Particle.Sand
        by_cases h1 : m2 * WIDTH + m1 = d.2 * WIDTH + d.1
        · rw [if_pos h1]
        · rw [if_neg h1]
          have h2 : m2 * WIDTH + m1 ≠ y * WIDTH + x := by
            intro hh
            have hmx1 : m1 < WIDTH := hmx
            obtain ⟨hhx, hhy⟩ := idx_inj hmx1 (by
              simp only [WIDTH] at *; omega) hh
            exact hne (by rw [hhx, hhy])
          rw [if_neg h2]
          exact hmsand
    · intro m hmem hne
      rw [hm]
      exact Finset.mem_insert_of_mem (Finset.mem_erase.2 ⟨hne, hmem⟩)

lemma tickWith_cons (a : Nat × Nat) (l : List (Nat × Nat)) (w : World) :
    tickWith (a :: l) w = tickWith l (step w a) := rfl

/-- Folding the tick over a duplicate-free list of active-set members
preserves the sand count and the active-set invariant. -/
lemma tickWith_inv : ∀ (order : List (Nat × Nat)) (w : World), order.Nodup →
    (∀ c ∈ order, c ∈ w.movable) → GoodActive w →
    sandCount (tickWith order w) = sandCount w ∧ GoodActive (tickWith order w) := by
  intro order
  induction order with
  | nil => intro w _ _ hinv; exact ⟨rfl, hinv⟩
  | cons a l ih =>
    intro w hnd hmem hinv
    have ha : a ∈ w.movable := hmem a (List.mem_cons_self a l)
    obtain ⟨hcount, hgood, hkeep⟩ := step_sandCount_inv ha hinv
    have hl : ∀ c ∈ l, c ∈ (step w a).movable := fun c hc =>
      hkeep c (hmem c (List.mem_cons_of_mem a hc))
        (fun h => (List.nodup_cons.1 hnd).1 (h ▸ hc))
    obtain ⟨h1, h2⟩ := ih (step w a) (List.nodup_cons.1 hnd).2 hl hgood
    rw [tickWith_cons]
    exact ⟨by rw [h1, hcount], h2⟩

/-- C3: from a state whose active set only holds in-range sand cells, one
tick (under any iteration order of the snapshot) neither duplicates nor
deletes particles: the total number of sand cells is unchanged, and every
member of the resulting active set is again an in-range sand cell. -/
theorem c3_conservation (w : World) (order : List (Nat × Nat))
    (hord : IsSnapshot order w) (hinv : GoodActive w) :
    sandCount (tickWith order w) = sandCount w ∧ GoodActive (tickWith order w) :=
  tickWith_inv order w hord.1 (fun c hc => (hord.2 c).1 hc) hinv

/-- Witness for C3: the singleton active set of `loneWorld 5 3` satisfies
the invariant and one tick preserves both the sand count and the
invariant. -/
theorem c3_witness :
    IsSnapshot [(5, 3)] (loneWorld 5 3) ∧ GoodActive (loneWorld 5 3) ∧
    sandCount (tickWith [(5, 3)] (loneWorld 5 3)) = sandCount (loneWorld 5 3) ∧
    GoodActive (tickWith [(5, 3)] (loneWorld 5 3)) := by
  have hsnap : IsSnapshot [(5, 3)] (loneWorld 5 3) := by
    constructor
    · decide
    · intro c
      simp [loneWorld]
  have hgood : GoodActive (loneWorld 5 3) := by
    intro c hc
    rw [show (loneWorld 5 3).movable = {(5, 3)} from rfl,
      Finset.mem_singleton] at hc
    subst hc
    exact ⟨by decide, by decide, by decide⟩
  obtain ⟨h1, h2⟩ := c3_conservation (loneWorld 5 3) [(5, 3)] hsnap hgood
  exact ⟨hsnap, hgood, h1, h2⟩

/-- Counterexample to C5 as stated: the access `get(427, 0)` has `x >= WIDTH`
yet its linear index `0 * WIDTH + 427` is still inside the backing array,
so instead of failing fatally it silently reads the in-range cell `(0, 1)`;
likewise `set(427, 0, Sand)` silently overwrites cell `(0, 1)`. -/
theorem c5_counterexample :
    WIDTH ≤ 427 ∧
    World.getChecked (World.set World.new 0 1 Particle.Static) 427 0 =
      some Particle.Static ∧
    (World.setChecked World.new 427 0 Particle.Sand).map
      (fun w => World.get w 0 1) = some Particle.Sand := by
  decide

/-- C5 (amended): out-of-range `get`/`set` fail fatally exactly when the
linear index `y * WIDTH + x` reaches `WIDTH * HEIGHT`; for `y >= HEIGHT`
this always happens, but for `x >= WIDTH` with a small enough `y` the
access silently hits the in-range cell at linear index `y * WIDTH + x`. -/
theorem c5_amended (w : World) (x y : Nat) (p : Particle)
    (h : WIDTH ≤ x ∨ HEIGHT ≤ y) :
    (w.getChecked x y = none ↔ WIDTH * HEIGHT ≤ y * WIDTH + x) ∧
    (w.setChecked x y p = none ↔ WIDTH * HEIGHT ≤ y * WIDTH + x) ∧
    (HEIGHT ≤ y → w.getChecked x y = none ∧ w.setChecked x y p = none) ∧
    (y * WIDTH + x < WIDTH * HEIGHT →
      w.getChecked x y = some (w.grid (y * WIDTH + x)) ∧
      w.setChecked x y p = some (w.set x y p)) := by
  unfold World.getChecked World.setChecked
  by_cases hidx : y * WIDTH + x < WIDTH * HEIGHT
  · rw [if_pos hidx, if_pos hidx]
    refine ⟨by simp; omega, by simp; omega, ?_, fun _ => ⟨rfl, rfl⟩⟩
    intro hy
    have : WIDTH * HEIGHT ≤ y * WIDTH + x := by
      simp only [WIDTH, HEIGHT] at *
      omega
    omega
  · rw [if_neg hidx, if_neg hidx]
    exact ⟨by simp; omega, by simp; omega, fun _ => ⟨rfl, rfl⟩,
      fun hlt => absurd hlt hidx⟩

/-- Witness for the amended C5: `get(427, 0)` and `set(427, 0, Sand)` on the
fresh world succeed and address linear index `0 * WIDTH + 427`. -/
theorem c5_amended_witness :
    (WIDTH ≤ 427 ∨ HEIGHT ≤ 0) ∧
    World.new.getChecked 427 0 = some (World.new.grid (0 * WIDTH + 427)) ∧
    World.new.setChecked 427 0 Particle.Sand =
      some (World.new.set 427 0 Particle.Sand) :=
  ⟨Or.inl (by decide),
    ((c5_amended World.new 427 0 Particle.Sand (Or.inl (by decide))).2.2.2
      (by decide)).1,
    ((c5_amended World.new 427 0 Particle.Sand (Or.inl (by decide))).2.2.2
      (by decide)).2⟩

/-- Two worlds with equal fields are equal. -/
lemma worldExt {w1 w2 : World} (hg : w1.grid = w2.grid)
    (hm : w1.movable = w2.movable) (hr : w1.radius = w2.radius) : w1 = w2 := by
  cases w1
  cases w2
  simp only [World.mk.injEq]
  exact ⟨hg, hm, hr⟩

/-- The only duplicate-free enumeration of a singleton active set is the
one-element list. -/
lemma snapshot_singleton {order : List (Nat × Nat)} {c : Nat × Nat} {w : World}
    (hmov : w.movable = {c}) (h : IsSnapshot order w) : order = [c] := by
  obtain ⟨hnd, hmem⟩ := h
  have hc : ∀ a, a ∈ order ↔ a = c := by
    intro a
    rw [hmem a, hmov, Finset.mem_singleton]
  cases order with
  | nil => exact absurd ((hc c).2 rfl) (List.not_mem_nil c)
  | cons a l =>
    have ha : a = c := (hc a).1 (List.mem_cons_self a l)
    subst ha
    cases l with
    | nil => rfl
    | cons b m =>
      have hb : b = a := (hc b).1 (List.mem_cons_of_mem a (List.mem_cons_self b m))
      subst hb
      exact absurd (List.mem_cons_self b m) (List.nodup_cons.1 hnd).1

/-- A guarded lone particle falls straight down one row in one tick. -/
lemma lone_tick_step {x y : Nat} (hx1 : 0 < x) (hx2 : x < WIDTH - 1)
    (hy : y < HEIGHT - 1) :
    tickWith [(x, y)] (loneWorld x y) = loneWorld x (y + 1) := by
  have hg : ¬(x = 0 ∨ WIDTH - 1 ≤ x ∨ HEIGHT - 1 ≤ y) := by
    push_neg
    exact ⟨by omega, by omega, by omega⟩
  have hget : (loneWorld x y).get x (y + 1) = Particle.Empty := by
    show (if (y + 1) * WIDTH + x = y * WIDTH + x then Particle.Sand
        else Particle.Empty) = Particle.Empty
    rw [if_neg (by simp only [WIDTH]; omega)]
  have ht : toGo (loneWorld x y) x y = some (x, y + 1) := by
    unfold toGo
    rw [if_pos hget]
  have hstep : tickWith [(x, y)] (loneWorld x y) =
      moveTo (loneWorld x y) x y (x, y + 1) := by
    rw [tickWith_cons]
    show step (loneWorld x y) (x, y) = _
    exact step_eq_of_toGo hg ht
  rw [hstep]
  apply worldExt
  · funext i
    show (if i = (y + 1) * WIDTH + x then Particle.Sand
        else if i = y * WIDTH + x then Particle.Empty
        else if i = y * WIDTH + x then Particle.Sand else Particle.Empty) =
      (if i = (y + 1) * WIDTH + x then Particle.Sand else Particle.Empty)
    by_cases h1 : i = (y + 1) * WIDTH + x
    · rw [if_pos h1, if_pos h1]
    · rw [if_neg h1, if_neg h1]
      by_cases h2 : i = y * WIDTH + x
      · rw [if_pos h2]
      · rw [if_neg h2, if_neg h2]
  · show insert (x, y + 1) (Finset.erase {(x, y)} (x, y)) = {(x, y + 1)}
    apply Finset.ext
    intro a
    simp only [Finset.mem_insert, Finset.mem_erase, Finset.mem_singleton]
    constructor
    · rintro (rfl | ⟨hne, rfl⟩)
      · rfl
      · exact absurd rfl hne
    · intro h
      exact Or.inl h
  · rfl

/-- A lone particle on the bottom row is skipped by the boundary guard. -/
lemma lone_stuck_tick (x : Nat) :
    tickWith [(x, HEIGHT - 1)] (loneWorld x (HEIGHT - 1)) =
      loneWorld x (HEIGHT - 1) := by
  rw [tickWith_cons, step_guard (Or.inr (Or.inr (le_refl _)))]
  rfl

/-- Existence half of the lone fall: the single-coordinate snapshot is
forced, so the tick relation holds towards the next row. -/
lemma lone_tickRel_exists (x y : Nat) (hx1 : 0 < x) (hx2 : x < WIDTH - 1)
    (hy : y < HEIGHT - 1) :
    TickRel (loneWorld x y) (loneWorld x (y + 1)) :=
  ⟨[(x, y)], ⟨List.nodup_cons.2 ⟨List.not_mem_nil _, List.nodup_nil⟩,
      by intro c; simp [loneWorld]⟩,
    (lone_tick_step hx1 hx2 hy).symm⟩

/-- Uniqueness half of the lone fall: any tick from the lone world lands
in the next row's lone world. -/
lemma lone_tickRel {x y : Nat} (hx1 : 0 < x) (hx2 : x < WIDTH - 1)
    (hy : y < HEIGHT - 1) {w1 : World} (h : TickRel (loneWorld x y) w1) :
    w1 = loneWorld x (y + 1) := by
  obtain ⟨order, hsnap, rfl⟩ := h
  rw [snapshot_singleton rfl hsnap]
  exact lone_tick_step hx1 hx2 hy

/-- Any tick from the stuck lone world is the identity. -/
lemma lone_stuck_tickRel {x : Nat} {w1 : World}
    (h : TickRel (loneWorld x (HEIGHT - 1)) w1) :
    w1 = loneWorld x (HEIGHT - 1) := by
  obtain ⟨order, hsnap, rfl⟩ := h
  rw [snapshot_singleton rfl hsnap]
  exact lone_stuck_tick x

lemma lone_ticksTo (x : Nat) (hx1 : 0 < x) (hx2 : x < WIDTH - 1) :
    ∀ k y, y + k ≤ HEIGHT - 1 →
      ticksTo k (loneWorld x y) (loneWorld x (y + k)) := by
  intro k
  induction k with
  | zero => intro y _; rfl
  | succ n ih =>
    intro y hk
    refine ⟨loneWorld x (y + 1), lone_tickRel_exists x y hx1 hx2 (by omega), ?_⟩
    have h := ih (y + 1) (by omega)
    rw [show y + 1 + n = y + (n + 1) from by omega] at h
    exact h

lemma lone_ticksTo_det (x : Nat) (hx1 : 0 < x) (hx2 : x < WIDTH - 1) :
    ∀ k y, y + k ≤ HEIGHT - 1 → ∀ w1, ticksTo k (loneWorld x y) w1 →
      w1 = loneWorld x (y + k) := by
  intro k
  induction k with
  | zero => intro y _ w1 h; exact h
  | succ n ih =>
    intro y hk w1 h
    obtain ⟨w2, hrel, hrest⟩ := h
    rw [lone_tickRel hx1 hx2 (by omega) hrel] at hrest
    have h2 := ih (y + 1) (by omega) w1 hrest
    rw [h2]
    congr 1
    omega

lemma lone_stuck_forever (x : Nat) :
    ∀ k w1, ticksTo k (loneWorld x (HEIGHT - 1)) w1 →
      w1 = loneWorld x (HEIGHT - 1) := by
  intro k
  induction k with
  | zero => intro w1 h; exact h
  | succ n ih =>
    intro w1 h
    obtain ⟨w2, hrel, hrest⟩ := h
    rw [lone_stuck_tickRel hrel] at hrest
    exact ih w1 hrest

/-- Counterexample to C4 as stated: at `y = HEIGHT - 2` the condition
`y + 1 >= HEIGHT - 1` already holds, so the claim says the particle has
stopped permanently; instead one tick still moves it down one more row,
onto the bottom row `HEIGHT - 1`. -/
theorem c4_counterexample :
    HEIGHT - 1 ≤ (HEIGHT - 2) + 1 ∧
    TickRel (loneWorld 5 (HEIGHT - 2)) (loneWorld 5 (HEIGHT - 1)) ∧
    (loneWorld 5 (HEIGHT - 2)).get 5 (HEIGHT - 2) = Particle.Sand ∧
    (loneWorld 5 (HEIGHT - 1)).get 5 (HEIGHT - 2) = Particle.Empty ∧
    (loneWorld 5 (HEIGHT - 1)).get 5 (HEIGHT - 1) = Particle.Sand := by
  refine ⟨by decide, ?_, by decide, by decide, by decide⟩
  have h := lone_tickRel_exists 5 (HEIGHT - 2) (by decide) (by decide) (by decide)
  rw [show HEIGHT - 2 + 1 = HEIGHT - 1 from by decide] at h
  exact h

/-- C4 (amended): a lone sand particle at `(x, y)` with `1 < x < WIDTH - 2`
and everything else empty falls straight down exactly one row per tick
(deterministically, whatever the snapshot iteration order) until it
reaches the bottom row `y = HEIGHT - 1`, where the boundary guard stops it
permanently. -/
theorem c4_amended (x : Nat) (hx1 : 1 < x) (hx2 : x < WIDTH - 2) :
    (∀ y k, y + k ≤ HEIGHT - 1 →
      ticksTo k (loneWorld x y) (loneWorld x (y + k)) ∧
      ∀ w1, ticksTo k (loneWorld x y) w1 → w1 = loneWorld x (y + k)) ∧
    (∀ k w1, ticksTo k (loneWorld x (HEIGHT - 1)) w1 →
      w1 = loneWorld x (HEIGHT - 1)) := by
  have hx1a : 0 < x := by omega
  have hx2a : x < WIDTH - 1 := by
    simp only [WIDTH] at *
    omega
  exact ⟨fun y k hk => ⟨lone_ticksTo x hx1a hx2a k y hk,
      lone_ticksTo_det x hx1a hx2a k y hk⟩,
    lone_stuck_forever x⟩

/-- Witness for the amended C4: the particle at `(5, 0)` falls three rows
in three ticks. -/
theorem c4_witness :
    (1 : Nat) < 5 ∧ 5 < WIDTH - 2 ∧
    ticksTo 3 (loneWorld 5 0) (loneWorld 5 3) :=
  ⟨by decide, by decide,
    ((c4_amended 5 (by decide) (by decide)).1 0 3 (by decide)).1⟩

/-- One loop iteration of the tick never disturbs a sand cell pinned on
the left column, right column or bottom row: such a cell is never a
legal source (the guard skips it) and never a destination (destinations
must be empty). -/
lemma edge_step_preserve {w : World} {x y : Nat} (hx : x < WIDTH)
    (hedge : x = 0 ∨ x = WIDTH - 1 ∨ y = HEIGHT - 1)
    (hsand : w.get x y = Particle.Sand) (c : Nat × Nat) :
    (step w c).get x y = Particle.Sand := by
  obtain ⟨cx, cy⟩ := c
  by_cases hg : cx = 0 ∨ WIDTH - 1 ≤ cx ∨ HEIGHT - 1 ≤ cy
  · rw [step_guard hg]
    exact hsand
  cases ht : toGo w cx cy with
  | none =>
    rw [step_eq_of_noGo hg ht]
    exact hsand
  | some d =>
    rw [step_eq_of_toGo hg ht]
    push_neg at hg
    obtain ⟨hcx0, hcxW, hcyH⟩ := hg
    show (if y * WIDTH + x = d.2 * WIDTH + d.1 then Particle.Sand
        else if y * WIDTH + x = cy * WIDTH + cx then Particle.Empty
        else w.grid (y * WIDTH + x)) = Particle.Sand
    by_cases h1 : y * WIDTH + x = d.2 * WIDTH + d.1
    · rw [if_pos h1]
    · rw [if_neg h1]
      have hcxW2 : cx < WIDTH := by
        simp only [WIDTH] at hcxW ⊢
        omega
      have h2 : y * WIDTH + x ≠ cy * WIDTH + cx := by
        intro hh
        obtain ⟨hhx, hhy⟩ := idx_inj hx hcxW2 hh
        simp only [WIDTH, HEIGHT] at hedge hcx0 hcxW hcyH
        omega
      rw [if_neg h2]
      exact hsand

lemma edge_tickWith_preserve {x y : Nat} (hx : x < WIDTH)
    (hedge : x = 0 ∨ x = WIDTH - 1 ∨ y = HEIGHT - 1) :
    ∀ (order : List (Nat × Nat)) (w : World), w.get x y = Particle.Sand →
      (tickWith order w).get x y = Particle.Sand := by
  intro order
  induction order with
  | nil => intro w hsand; exact hsand
  | cons a l ih =>
    intro w hsand
    rw [tickWith_cons]
    exact ih (step w a) (edge_step_preserve hx hedge hsand a)

/-- C8: a sand cell on the left column, right column or bottom row is
never vacated or overwritten by any number of consecutive ticks, whatever
iteration orders the hash set produces. -/
theorem c8_edge_immobile (w : World) (x y : Nat) (hx : x < WIDTH)
    (hy : y < HEIGHT) (hedge : x = 0 ∨ x = WIDTH - 1 ∨ y = HEIGHT - 1)
    (hsand : w.get x y = Particle.Sand) :
    ∀ k w1, ticksTo k w w1 → w1.get x y = Particle.Sand := by
  intro k
  induction k generalizing w with
  | zero =>
    intro w1 h
    rw [h]
    exact hsand
  | succ n ih =>
    intro w1 h
    obtain ⟨w2, ⟨order, _, rfl⟩, hrest⟩ := h
    exact ih (tickWith order w) (edge_tickWith_preserve hx hedge order w hsand)
      w1 hrest

/-- Witness for C8: the left-column sand cell of `loneWorld 0 5` still
holds sand after one tick. -/
theorem c8_witness :
    0 < WIDTH ∧ 5 < HEIGHT ∧ (loneWorld 0 5).get 0 5 = Particle.Sand ∧
    World.get (loneWorld 0 5) 0 5 = Particle.Sand := by
  have htick : tickWith [(0, 5)] (loneWorld 0 5) = loneWorld 0 5 := by
    rw [tickWith_cons, step_guard (Or.inl rfl)]
    rfl
  have hsnap : IsSnapshot [(0, 5)] (loneWorld 0 5) :=
    ⟨List.nodup_cons.2 ⟨List.not_mem_nil _, List.nodup_nil⟩,
      by intro c; simp [loneWorld]⟩
  refine ⟨by decide, by decide, by decide, ?_⟩
  exact c8_edge_immobile (loneWorld 0 5) 0 5 (by decide) (by decide)
    (Or.inl rfl) (by decide) 1 (loneWorld 0 5)
    ⟨loneWorld 0 5, ⟨[(0, 5)], hsnap, htick.symm⟩, rfl⟩

lemma mem_natRange {lo hi x : Nat} : x ∈ natRange lo hi ↔ lo ≤ x ∧ x < hi := by
  unfold natRange
  simp only [List.mem_map, List.mem_range]
  constructor
  · rintro ⟨k, hk, rfl⟩
    omega
  · rintro ⟨h1, h2⟩
    exact ⟨x - lo, by omega, by omega⟩

lemma natRange_eq_nil {lo hi : Nat} (h : hi ≤ lo) : natRange lo hi = [] := by
  unfold natRange
  rw [Nat.sub_eq_zero_of_le h]
  rfl

/-- The nested paint loops visit exactly the cells of the spec's clamped
`max`/`min` region. -/
lemma mem_paintCells {mx my r : Nat} {c : Nat × Nat} :
    c ∈ paintCells mx my r ↔ inRegion mx my r c := by
  obtain ⟨cx, cy⟩ := c
  have ex : (if mx < r then 0 else mx - r) = max 0 (mx - r) := by
    split_ifs <;> omega
  have eX : (if mx + r ≥ WIDTH then WIDTH - 1 else mx + r) =
      min (WIDTH - 1) (mx + r) := by
    split_ifs <;> omega
  have ey : (if my < r then 0 else my - r) = max 0 (my - r) := by
    split_ifs <;> omega
  have eY : (if my + r ≥ HEIGHT then HEIGHT - 1 else my + r) =
      min (HEIGHT - 1) (my + r) := by
    split_ifs <;> omega
  unfold paintCells inRegion
  simp only [List.mem_flatMap, List.mem_map, mem_natRange, ex, eX, ey, eY]
  constructor
  · rintro ⟨x, hx, y, hy, heq⟩
    injection heq with h1 h2
    subst h1
    subst h2
    exact ⟨hx.1, hx.2, hy.1, hy.2⟩
  · rintro ⟨h1, h2, h3, h4⟩
    exact ⟨cx, ⟨h1, h2⟩, cy, ⟨h3, h4⟩, rfl⟩

/-- Every cell in the spec's paint region is strictly inside the grid. -/
lemma inRegion_bounds {mx my r : Nat} {c : Nat × Nat}
    (h : inRegion mx my r c) : c.1 < WIDTH ∧ c.2 < HEIGHT := by
  obtain ⟨_, h2, _, h4⟩ := h
  omega

/-- The grid after the paint fold: a cell of the visited list holds the
painted particle, any other index is untouched. -/
lemma foldl_paintCell_grid (p : Particle) :
    ∀ (cells : List (Nat × Nat)) (w : World) (i : Nat),
      (cells.foldl (paintCell p) w).grid i =
        if ∃ c ∈ cells, i = c.2 * WIDTH + c.1 then p else w.grid i := by
  intro cells
  induction cells with
  | nil => intro w i; simp
  | cons a l ih =>
    intro w i
    rw [List.foldl_cons, ih]
    by_cases h1 : ∃ c ∈ l, i = c.2 * WIDTH + c.1
    · rw [if_pos h1]
      obtain ⟨c, hc, hci⟩ := h1
      rw [if_pos ⟨c, List.mem_cons_of_mem a hc, hci⟩]
    · rw [if_neg h1]
      by_cases h2 : i = a.2 * WIDTH + a.1
      · have hpaint : (paintCell p w a).grid i = p := by
          unfold paintCell
          split_ifs
          · show (if i = a.2 * WIDTH + a.1 then p else w.grid i) = p
            rw [if_pos h2]
          · show (if i = a.2 * WIDTH + a.1 then p else w.grid i) = p
            rw [if_pos h2]
        rw [hpaint, if_pos ⟨a, List.mem_cons_self a l, h2⟩]
      · have hpaint : (paintCell p w a).grid i = w.grid i := by
          unfold paintCell
          split_ifs
          · show (if i = a.2 * WIDTH + a.1 then p else w.grid i) = w.grid i
            rw [if_neg h2]
          · show (if i = a.2 * WIDTH + a.1 then p else w.grid i) = w.grid i
            rw [if_neg h2]
        rw [hpaint, if_neg ?_]
        rintro ⟨c, hc, hci⟩
        rcases List.mem_cons.1 hc with rfl | hc2
        · exact h2 hci
        · exact h1 ⟨c, hc2, hci⟩

/-- The active set after painting sand: exactly the old members plus the
visited cells. -/
lemma foldl_paintCell_movable_sand :
    ∀ (cells : List (Nat × Nat)) (w : World) (m : Nat × Nat),
      (m ∈ (cells.foldl (paintCell Particle.Sand) w).movable ↔
        m ∈ w.movable ∨ m ∈ cells) := by
  intro cells
  induction cells with
  | nil => intro w m; simp
  | cons a l ih =>
    intro w m
    rw [List.foldl_cons, ih]
    have hmov : (paintCell Particle.Sand w a).movable = insert a w.movable := by
      unfold paintCell
      rw [if_pos rfl]
      rfl
    rw [hmov]
    simp only [Finset.mem_insert, List.mem_cons]
    tauto

/-- Painting a non-sand particle never touches the active set. -/
lemma foldl_paintCell_movable_nonsand (p : Particle) (hp : p ≠ Particle.Sand) :
    ∀ (cells : List (Nat × Nat)) (w : World),
      (cells.foldl (paintCell p) w).movable = w.movable := by
  intro cells
  induction cells with
  | nil => intro w; rfl
  | cons a l ih =>
    intro w
    rw [List.foldl_cons, ih]
    show (paintCell p w a).movable = w.movable
    unfold paintCell
    rw [if_neg hp]
    rfl

/-- With radius zero the clamped ranges are empty and nothing is painted. -/
lemma paintCells_radius_zero (mx my : Nat) : paintCells mx my 0 = [] := by
  have hx : natRange (if mx < 0 then 0 else mx - 0)
      (if mx + 0 ≥ WIDTH then WIDTH - 1 else mx + 0) = [] := by
    apply natRange_eq_nil
    split_ifs <;> omega
  show (natRange (if mx < 0 then 0 else mx - 0)
      (if mx + 0 ≥ WIDTH then WIDTH - 1 else mx + 0)).flatMap
    (fun x => (natRange (if my < 0 then 0 else my - 0)
      (if my + 0 ≥ HEIGHT then HEIGHT - 1 else my + 0)).map (fun y => (x, y))) = []
  rw [hx]
  rfl

/-- C6: painting with pointer grid coordinate `(mx, my)` sets exactly the
cells of the clamped half-open region
`[max(0, mx - r), min(WIDTH - 1, mx + r)) × [max(0, my - r), min(HEIGHT - 1, my + r))`
to the chosen particle, leaves every in-range cell outside it unchanged,
inserts (when painting sand) exactly the region's coordinates into the
active set, and paints nothing at radius zero. -/
theorem c6_paint_region (w : World) (mx my : Nat) (p : Particle) :
    (∀ x y, inRegion mx my w.radius (x, y) → (w.add mx my p).get x y = p) ∧
    (∀ x y, x < WIDTH → y < HEIGHT → ¬inRegion mx my w.radius (x, y) →
      (w.add mx my p).get x y = w.get x y) ∧
    (p = Particle.Sand →
      ∀ c, c ∈ (w.add mx my p).movable ↔
        c ∈ w.movable ∨ inRegion mx my w.radius c) ∧
    (w.radius = 0 → w.add mx my p = w) := by
  refine ⟨?_, ?_, ?_, ?_⟩
  · intro x y hin
    show ((paintCells mx my w.radius).foldl (paintCell p) w).grid
      (y * WIDTH + x) = p
    rw [foldl_paintCell_grid]
    exact if_pos ⟨(x, y), mem_paintCells.2 hin, rfl⟩
  · intro x y hx hy hout
    show ((paintCells mx my w.radius).foldl (paintCell p) w).grid
      (y * WIDTH + x) = w.grid (y * WIDTH + x)
    rw [foldl_paintCell_grid]
    apply if_neg
    rintro ⟨c, hc, hci⟩
    have hin := mem_paintCells.1 hc
    obtain ⟨hcx, hcy⟩ := inRegion_bounds hin
    obtain ⟨h1, h2⟩ := idx_inj hx hcx hci
    apply hout
    obtain ⟨c1, c2⟩ := c
    rw [h1, h2]
    exact hin
  · rintro rfl c
    show c ∈ ((paintCells mx my w.radius).foldl
      (paintCell Particle.Sand) w).movable ↔ _
    rw [foldl_paintCell_movable_sand, mem_paintCells]
  · intro hr
    show (paintCells mx my w.radius).foldl (paintCell p) w = w
    rw [hr, paintCells_radius_zero]
    rfl

/-- A fresh world carrying a small brush radius, for the paint witnesses. -/
def wBrush : World := { World.new with radius := 2 }

/-- A fresh world with brush radius zero. -/
def wBrush0 : World := { World.new with radius := 0 }

/-- Witness for C6: with radius 2 at `(20, 20)`, cell `(19, 20)` is inside
the region and painted, cell `(25, 25)` is outside and untouched, the
active-set description holds at `(19, 20)`, and radius 0 paints nothing. -/
theorem c6_witness :
    inRegion 20 20 wBrush.radius (19, 20) ∧
    (wBrush.add 20 20 Particle.Sand).get 19 20 = Particle.Sand ∧
    ¬inRegion 20 20 wBrush.radius (25, 25) ∧
    (wBrush.add 20 20 Particle.Sand).get 25 25 = wBrush.get 25 25 ∧
    ((19, 20) ∈ (wBrush.add 20 20 Particle.Sand).movable ↔
      (19, 20) ∈ wBrush.movable ∨ inRegion 20 20 wBrush.radius (19, 20)) ∧
    wBrush0.add 3 3 Particle.Sand = wBrush0 := by
  obtain ⟨h1, h2, h3, _⟩ := c6_paint_region wBrush 20 20 Particle.Sand
  exact ⟨by decide, h1 19 20 (by decide), by decide,
    h2 25 25 (by decide) (by decide) (by decide), h3 rfl (19, 20),
    (c6_paint_region wBrush0 3 3 Particle.Sand).2.2.2 rfl⟩

/-- C7: painting `Empty` or `Static` leaves the active set exactly
unchanged, even over cells whose coordinates are tracked in it. -/
theorem c7_nonsand_paint_keeps_active (w : World) (mx my : Nat) :
    (w.add mx my Particle.Empty).movable = w.movable ∧
    (w.add mx my Particle.Static).movable = w.movable :=
  ⟨foldl_paintCell_movable_nonsand Particle.Empty (by decide)
      (paintCells mx my w.radius) w,
    foldl_paintCell_movable_nonsand Particle.Static (by decide)
      (paintCells mx my w.radius) w⟩

/-- Reading back the four bytes written for cell `i` by one render
iteration. -/
lemma drawCell_at (w : World) (f : Nat → Nat) (i : Nat) :
    (drawCell w f i) (i * 4) = (w.grid i).color.1 ∧
    (drawCell w f i) (i * 4 + 1) = (w.grid i).color.2.1 ∧
    (drawCell w f i) (i * 4 + 2) = (w.grid i).color.2.2 ∧
    (drawCell w f i) (i * 4 + 3) = 255 := by
  unfold drawCell updFrame
  refine ⟨?_, ?_, ?_, ?_⟩
  · show (if i * 4 = i * 4 + 3 then (255 : Nat)
        else if i * 4 = i * 4 + 2 then (w.grid i).color.2.2
        else if i * 4 = i * 4 + 1 then (w.grid i).color.2.1
        else if i * 4 = i * 4 then (w.grid i).color.1
        else f (i * 4)) = (w.grid i).color.1
    rw [if_neg (by omega), if_neg (by omega), if_neg (by omega), if_pos rfl]
  · show (if i * 4 + 1 = i * 4 + 3 then (255 : Nat)
        else if i * 4 + 1 = i * 4 + 2 then (w.grid i).color.2.2
        else if i * 4 + 1 = i * 4 + 1 then (w.grid i).color.2.1
        else if i * 4 + 1 = i * 4 then (w.grid i).color.1
        else f (i * 4 + 1)) = (w.grid i).color.2.1
    rw [if_neg (by omega), if_neg (by omega), if_pos rfl]
  · show (if i * 4 + 2 = i * 4 + 3 then (255 : Nat)
        else if i * 4 + 2 = i * 4 + 2 then (w.grid i).color.2.2
        else if i * 4 + 2 = i * 4 + 1 then (w.grid i).color.2.1
        else if i * 4 + 2 = i * 4 then (w.grid i).color.1
        else f (i * 4 + 2)) = (w.grid i).color.2.2
    rw [if_neg (by omega), if_pos rfl]
  · show (if i * 4 + 3 = i * 4 + 3 then (255 : Nat)
        else if i * 4 + 3 = i * 4 + 2 then (w.grid i).color.2.2
        else if i * 4 + 3 = i * 4 + 1 then (w.grid i).color.2.1
        else if i * 4 + 3 = i * 4 then (w.grid i).color.1
        else f (i * 4 + 3)) = 255
    rw [if_pos rfl]

/-- Rendering a different cell never touches the four bytes of cell `i`. -/
lemma drawCell_other (w : World) (f : Nat → Nat) (j i k : Nat)
    (hij : i ≠ j) (hk : k < 4) :
    (drawCell w f j) (i * 4 + k) = f (i * 4 + k) := by
  unfold drawCell updFrame
  show (if i * 4 + k = j * 4 + 3 then (255 : Nat)
      else if i * 4 + k = j * 4 + 2 then (w.grid j).color.2.2
      else if i * 4 + k = j * 4 + 1 then (w.grid j).color.2.1
      else if i * 4 + k = j * 4 then (w.grid j).color.1
      else f (i * 4 + k)) = f (i * 4 + k)
  rw [if_neg (by omega), if_neg (by omega), if_neg (by omega),
    if_neg (by omega)]

lemma foldl_drawCell_notmem (w : World) :
    ∀ (l : List Nat) (f : Nat → Nat) (i k : Nat), i ∉ l → k < 4 →
      (l.foldl (drawCell w) f) (i * 4 + k) = f (i * 4 + k) := by
  intro l
  induction l with
  | nil => intro f i k _ _; rfl
  | cons a t ih =>
    intro f i k hmem hk
    rw [List.foldl_cons, ih (drawCell w f a) i k
      (fun h => hmem (List.mem_cons_of_mem a h)) hk]
    exact drawCell_other w f a i k
      (fun h => hmem (h ▸ List.mem_cons_self a t)) hk

lemma foldl_drawCell_mem (w : World) :
    ∀ (l : List Nat) (f : Nat → Nat) (i : Nat), i ∈ l → l.Nodup →
      (l.foldl (drawCell w) f) (i * 4) = (w.grid i).color.1 ∧
      (l.foldl (drawCell w) f) (i * 4 + 1) = (w.grid i).color.2.1 ∧
      (l.foldl (drawCell w) f) (i * 4 + 2) = (w.grid i).color.2.2 ∧
      (l.foldl (drawCell w) f) (i * 4 + 3) = 255 := by
  intro l
  induction l with
  | nil => intro f i hmem _; exact absurd hmem (List.not_mem_nil i)
  | cons a t ih =>
    intro f i hmem hnd
    rw [List.foldl_cons]
    by_cases hai : i = a
    · subst hai
      have hnotin : i ∉ t := (List.nodup_cons.1 hnd).1
      have h0 := foldl_drawCell_notmem w t (drawCell w f i) i 0 hnotin (by omega)
      have h1 := foldl_drawCell_notmem w t (drawCell w f i) i 1 hnotin (by omega)
      have h2 := foldl_drawCell_notmem w t (drawCell w f i) i 2 hnotin (by omega)
      have h3 := foldl_drawCell_notmem w t (drawCell w f i) i 3 hnotin (by omega)
      rw [show i * 4 + 0 = i * 4 from rfl] at h0
      obtain ⟨g0, g1, g2, g3⟩ := drawCell_at w f i
      exact ⟨h0.trans g0, h1.trans g1, h2.trans g2, h3.trans g3⟩
    · exact ih (drawCell w f a) i
        (List.mem_of_ne_of_mem hai hmem) (List.nodup_cons.1 hnd).2

/-- C9: the renderer is a pure function of the grid writing the whole
frame: for every cell index `i` of the row-major grid, bytes `i * 4`
through `i * 4 + 2` of the frame hold the three fixed color channels of
the particle stored at index `i`, and byte `i * 4 + 3` is always 255,
independently of the frame's previous content. -/
theorem c9_renderer (w : World) (f : Nat → Nat) (i : Nat)
    (hi : i < WIDTH * HEIGHT) :
    (w.draw f) (i * 4) = (w.grid i).color.1 ∧
    (w.draw f) (i * 4 + 1) = (w.grid i).color.2.1 ∧
    (w.draw f) (i * 4 + 2) = (w.grid i).color.2.2 ∧
    (w.draw f) (i * 4 + 3) = 255 :=
  foldl_drawCell_mem w (List.range (WIDTH * HEIGHT)) f i
    (List.mem_range.2 hi) (List.nodup_range _)

/-- Witness for C9: byte 3 of the first pixel, applied at cell 0 of the
fresh world over a zeroed frame. -/
theorem c9_witness :
    0 < WIDTH * HEIGHT ∧
    (World.new.draw (fun _ => 0)) (0 * 4) = (World.new.grid 0).color.1 ∧
    (World.new.draw (fun _ => 0)) (0 * 4 + 1) = (World.new.grid 0).color.2.1 ∧
    (World.new.draw (fun _ => 0)) (0 * 4 + 2) = (World.new.grid 0).color.2.2 ∧
    (World.new.draw (fun _ => 0)) (0 * 4 + 3) = 255 :=
  ⟨by decide, c9_renderer World.new (fun _ => 0) 0 (by decide)⟩
